import Mathlib

/-!
Verification of the strawberry GraphQL extension lifecycle runner and
subscription driver, shallowly embedded from:
  * src/strawberry/extensions/context.py  (ExtensionContextManagerBase)
  * src/strawberry/extensions/runner.py   (SchemaExtensionsRunner)
  * src/strawberry/schema/subscribe.py    (_subscribe / subscribe)

Python generators are modelled as explicit step machines: each `__next__`
runs a block of side effects and then either yields, raises StopIteration
(also standing for StopAsyncIteration, which the code treats identically),
or raises another exception.  After raising or finishing, a generator is
closed and every further advance raises StopIteration with no effects,
matching CPython semantics.
-/

namespace Strawberry

/-- Outcome of one `__next__` / `__anext__` advance of a generator. -/
inductive GOut where
  | yielded
  | stopped
  | raised (e : String)
deriving DecidableEq, Repr

/-- One advance of a generator body: the side effects it runs, then how it
ends (reaching a `yield`, falling off the end, or raising). -/
structure GStep (ε : Type) where
  effects : List ε
  out : GOut
deriving DecidableEq, Repr

/-- The state of an initialized generator: the advances still to come, and
whether the generator has already finished or raised. -/
structure GenState (ε : Type) where
  rest : List (GStep ε)
  closed : Bool
deriving DecidableEq, Repr

/-- Advance a generator once: effects run, outcome, successor state.
A closed generator raises StopIteration with no effects; an exhausted body
does the same and closes; a `stopped` or `raised` step closes the
generator. -/
def genNext {ε : Type} : GenState ε → List ε × GOut × GenState ε
  | ⟨rest, true⟩ => ([], .stopped, ⟨rest, true⟩)
  | ⟨[], false⟩ => ([], .stopped, ⟨[], true⟩)
  | ⟨s :: rest, false⟩ =>
    match s.out with
    | .yielded => (s.effects, .yielded, ⟨rest, false⟩)
    | .stopped => (s.effects, .stopped, ⟨[], true⟩)
    | .raised e => (s.effects, .raised e, ⟨[], true⟩)

/-- Python exceptions the runner can surface. `stopIteration` stands for
both StopIteration and StopAsyncIteration (the code suppresses both
together). -/
inductive Exc where
  | stopIteration
  | runtimeError (msg : String)
  | hookError (e : String)
deriving DecidableEq, Repr

/-- `WrappedHook` from context.py: extension (identified by name), the
initialized hook generator, and the `is_async` flag. -/
structure WrappedHook (ε : Type) where
  extName : String
  gen : GenState ε
  is_async : Bool
deriving DecidableEq, Repr

/-- The message raised by `run_hooks_sync` on an async hook
(context.py lines 146-149). -/
def syncFailMsg (extName hookName : String) : String :=
  "Extension hook " ++ extName ++ "." ++ hookName ++
    " failed to complete synchronously."

/-- Result of one `run_hooks_sync` / `run_hooks_async` call: the side
effects observed in order, the hook list with updated generator states,
and the exception that escaped, if any. -/
structure RunOut (ε : Type) where
  trace : List ε
  hooks : List (WrappedHook ε)
  err : Option Exc
deriving DecidableEq, Repr

/-- `ExtensionContextManagerBase.run_hooks_sync` (context.py 136-151):
iterate the hooks in registration order; an async hook raises RuntimeError
(never advanced); otherwise `__next__` the generator.  With `is_exit`,
StopIteration/StopAsyncIteration is suppressed and iteration continues;
without it, StopIteration propagates.  Any other exception propagates and
aborts the remaining hooks. -/
def run_hooks_sync {ε : Type} (hookName : String) :
    List (WrappedHook ε) → Bool → RunOut ε
  | [], _ => ⟨[], [], none⟩
  | h :: rest, is_exit =>
    if h.is_async then
      ⟨[], h :: rest, some (.runtimeError (syncFailMsg h.extName hookName))⟩
    else
      let step := genNext h.gen
      let h' : WrappedHook ε := ⟨h.extName, step.2.2, h.is_async⟩
      match step.2.1 with
      | .yielded =>
        let r := run_hooks_sync hookName rest is_exit
        ⟨step.1 ++ r.trace, h' :: r.hooks, r.err⟩
      | .stopped =>
        if is_exit then
          let r := run_hooks_sync hookName rest is_exit
          ⟨step.1 ++ r.trace, h' :: r.hooks, r.err⟩
        else
          ⟨step.1, h' :: rest, some .stopIteration⟩
      | .raised e => ⟨step.1, h' :: rest, some (.hookError e)⟩

/-- `ExtensionContextManagerBase.run_hooks_async` (context.py 154-171):
same iteration, but async hooks are awaited (advanced) exactly like sync
ones; suppression of StopIteration/StopAsyncIteration on exit is
identical. -/
def run_hooks_async {ε : Type} :
    List (WrappedHook ε) → Bool → RunOut ε
  | [], _ => ⟨[], [], none⟩
  | h :: rest, is_exit =>
    let step := genNext h.gen
    let h' : WrappedHook ε := ⟨h.extName, step.2.2, h.is_async⟩
    match step.2.1 with
    | .yielded =>
      let r := run_hooks_async rest is_exit
      ⟨step.1 ++ r.trace, h' :: r.hooks, r.err⟩
    | .stopped =>
      if is_exit then
        let r := run_hooks_async rest is_exit
        ⟨step.1 ++ r.trace, h' :: r.hooks, r.err⟩
      else
        ⟨step.1, h' :: rest, some .stopIteration⟩
    | .raised e => ⟨step.1, h' :: rest, some (.hookError e)⟩

/-- Observable effect of a numbered extension's phase hook: its code
before the yield, or its code after the yield. -/
inductive HookEv where
  | before (i : Nat)
  | after (i : Nat)
deriving DecidableEq, Repr

/-- A typical single-yield hook, as produced by a new-style generator
`def on_X(self): before; yield; after`, for extension number `i`, with
asyncness `b`. -/
def mkHookA (i : Nat) (b : Bool) : WrappedHook HookEv :=
  ⟨"ext" ++ toString i, ⟨[⟨[.before i], .yielded⟩, ⟨[.after i], .stopped⟩], false⟩, b⟩

/-- Sync single-yield hook for extension `i`. -/
def mkHook (i : Nat) : WrappedHook HookEv := mkHookA i false

/-- `mkHookA i b` after its first (enter) advance. -/
def advHookA (i : Nat) (b : Bool) : WrappedHook HookEv :=
  ⟨"ext" ++ toString i, ⟨[⟨[.after i], .stopped⟩], false⟩, b⟩

/-- Sync variant of `advHookA`. -/
def advHook (i : Nat) : WrappedHook HookEv := advHookA i false

/-- `mkHookA i b` after both advances: the generator is closed. -/
def doneHookA (i : Nat) (b : Bool) : WrappedHook HookEv :=
  ⟨"ext" ++ toString i, ⟨[], true⟩, b⟩

/-- A hook whose advance raises exception `e` (a failing hook step). -/
def errHook (nm e : String) : WrappedHook HookEv :=
  ⟨nm, ⟨[⟨[], .raised e⟩], false⟩, false⟩

/-- A `from_callable`-style hook after its single (enter) advance: its
generator body is exhausted, so the exit advance raises StopIteration. -/
def spentHook (nm : String) : WrappedHook HookEv :=
  ⟨nm, ⟨[], false⟩, false⟩

/-- A hook whose generator is closed. -/
def closedHook (nm : String) : WrappedHook HookEv :=
  ⟨nm, ⟨[], true⟩, false⟩

/-! ## Hook construction: `get_hook`, `from_legacy`, `from_callable` -/

/-- A legacy-style callback (`on_X_start` / `on_X_end`): its effects and
whether `asyncio.iscoroutinefunction` holds of it. -/
structure LegacyFn (ε : Type) where
  effects : List ε
  is_coroutine : Bool
deriving DecidableEq, Repr

/-- The shape of the new-style hook attribute `type(extension).HOOK_NAME`,
mirroring the dispatch in `get_hook` (context.py 71-79): not overridden
(the `Extension` default), a sync generator function, an async generator
function, or a plain callable (itself sync or a coroutine function). -/
inductive HookShape (ε : Type) where
  | defaultHook
  | syncGen (body : List (GStep ε))
  | asyncGen (body : List (GStep ε))
  | plainCallable (effects : List ε) (is_coroutine : Bool)
deriving DecidableEq, Repr

/-- What one extension defines for one phase: the two optional legacy
callbacks and the new-style hook attribute. -/
structure ExtDef (ε : Type) where
  name : String
  legacy_enter : Option (LegacyFn ε)
  legacy_exit : Option (LegacyFn ε)
  hook : HookShape ε
deriving DecidableEq, Repr

/-- `hook_fn is not self.default_hook` (context.py 61). -/
def hookOverridden {ε : Type} : HookShape ε → Bool
  | .defaultHook => false
  | _ => true

/-- Rendering of the Python interpolation f"\x7bExtension\x7d" in the
conflict message (context.py 64): the repr of the base `Extension` class
itself (not of the offending extension).  Python writes it with quotes
around the dotted name; the exact rendering is irrelevant to the theorems
below, which only inspect the tail of the message. -/
def extensionClassRepr : String :=
  "<class strawberry.extensions.base_extension.Extension>"

/-- The conflict message raised by `get_hook` (context.py 62-66).  The
first fragment is an f-string, so `Extension` is interpolated; the second
fragment `"\x7bself.HOOK_NAME\x7d"` is NOT an f-string (the `f` prefix is
missing in the source), so those fourteen characters appear literally in
the message and the hook/phase name is never inserted. -/
def conflictMsg : String :=
  extensionClassRepr ++ " defines both legacy and new style extension hooks for " ++
    "\x7bself.HOOK_NAME\x7d"

/-- Effects of an optional legacy callback (`if on_start: on_start()`). -/
def optEffects {ε : Type} : Option (LegacyFn ε) → List ε
  | none => []
  | some f => f.effects

/-- `iscoroutinefunction(on_start)`: False when the attribute is None. -/
def optCoroutine {ε : Type} : Option (LegacyFn ε) → Bool
  | none => false
  | some f => f.is_coroutine

/-- `ExtensionContextManagerBase.from_legacy` (context.py 83-111): a
two-advance generator — first advance runs the start callback and yields,
second runs the end callback and finishes — async iff either callback is a
coroutine function. -/
def from_legacy {ε : Type} (nm : String) (s e : Option (LegacyFn ε)) :
    WrappedHook ε :=
  ⟨nm, ⟨[⟨optEffects s, .yielded⟩, ⟨optEffects e, .stopped⟩], false⟩,
   optCoroutine s || optCoroutine e⟩

/-- `ExtensionContextManagerBase.from_callable` (context.py 113-133): a
single-advance generator — first advance invokes the callable and yields;
the generator then has nothing further, so the exit advance raises
StopIteration. -/
def from_callable {ε : Type} (nm : String) (effs : List ε) (isCo : Bool) :
    WrappedHook ε :=
  ⟨nm, ⟨[⟨effs, .yielded⟩], false⟩, isCo⟩

/-- `ExtensionContextManagerBase.get_hook` (context.py 55-81): decide the
hook source for one extension and one phase.  Returns the optional wrapped
hook together with whether the deprecation warning was emitted, or the
configuration RuntimeError when both legacy and new-style hooks are
defined. -/
def get_hook {ε : Type} (ext : ExtDef ε) :
    Except Exc (Option (WrappedHook ε) × Bool) :=
  let is_legacy := ext.legacy_enter.isSome || ext.legacy_exit.isSome
  if is_legacy && hookOverridden ext.hook then
    .error (.runtimeError conflictMsg)
  else if is_legacy then
    .ok (some (from_legacy ext.name ext.legacy_enter ext.legacy_exit), true)
  else
    match ext.hook with
    | .defaultHook => .ok (none, false)
    | .syncGen b => .ok (some ⟨ext.name, ⟨b, false⟩, false⟩, false)
    | .asyncGen b => .ok (some ⟨ext.name, ⟨b, false⟩, true⟩, false)
    | .plainCallable effs isCo => .ok (some (from_callable ext.name effs isCo), false)

/-- `ExtensionContextManagerBase.__init__` (context.py 47-53): build the
wrapped hooks of all registered extensions in registration order; the
first configuration error aborts construction. -/
def initHooks {ε : Type} : List (ExtDef ε) → Except Exc (List (WrappedHook ε))
  | [] => .ok []
  | e :: rest =>
    match get_hook e with
    | .error ex => .error ex
    | .ok p =>
      match initHooks rest with
      | .error ex => .error ex
      | .ok hs =>
        match p.1 with
        | some w => .ok (w :: hs)
        | none => .ok hs

/-- Substring test on character lists: `leadsWith n h` holds when `n` is
an initial segment of `h`. -/
def leadsWith : List Char → List Char → Bool
  | [], _ => true
  | _ :: _, [] => false
  | a :: as, b :: bs => a == b && leadsWith as bs

/-- `containsSub n h`: the character list `n` occurs contiguously in `h`. -/
def containsSub (needle : List Char) : List Char → Bool
  | [] => leadsWith needle []
  | c :: rest => leadsWith needle (c :: rest) || containsSub needle rest

/-! ## Results aggregation: `SchemaExtensionsRunner.get_extensions_results*` -/

/-- One extension's `get_results` implementation: the inherited default,
a sync override returning a mapping, or a coroutine-function override. -/
inductive ResultsImpl (V : Type) where
  | defaultImpl
  | syncImpl (m : List (String × V))
  | asyncImpl (m : List (String × V))
deriving DecidableEq, Repr

/-- `SchemaExtensionsRunner._implments_get_rseults` (runner.py 43-46):
the extension's `get_results` differs from `SchemaExtension.get_results`. -/
def implementsGetResults {V : Type} : ResultsImpl V → Bool
  | .defaultImpl => false
  | _ => true

/-- Injection used to build prefixes containing no async override. -/
def toSyncImpl {V : Type} : Option (List (String × V)) → ResultsImpl V
  | none => .defaultImpl
  | some m => .syncImpl m

/-- Python dict lookup on our dict model (first matching entry wins). -/
def dlookup {V : Type} (d : List (String × V)) (k : String) : Option V :=
  (d.find? (fun p => p.1 = k)).map (·.2)

/-- `data.update(m)`: entries of `m` override entries of `data`.  Under
`dlookup` (first match wins) this is prepending `m`. -/
def dUpdate {V : Type} (d m : List (String × V)) : List (String × V) := m ++ d

/-- The message of runner.py line 53. -/
def asyncResultsMsg : String :=
  "Cannot use async extension hook during sync execution"

/-- Loop body of `get_extensions_results_sync` (runner.py 48-57): skip
non-overriding extensions, merge sync contributions into `data` in
registration order, raise on a coroutine-function `get_results`.  The
final result is returned WITHOUT overlaying the ExecutionContext's
per-iteration `extensions_results` (the sync variant never receives the
context). -/
def gersSyncAux {V : Type} (acc : List (String × V)) :
    List (ResultsImpl V) → Except Exc (List (String × V))
  | [] => .ok acc
  | .defaultImpl :: rest => gersSyncAux acc rest
  | .syncImpl m :: rest => gersSyncAux (dUpdate acc m) rest
  | .asyncImpl _ :: _ => .error (.runtimeError asyncResultsMsg)

/-- `SchemaExtensionsRunner.get_extensions_results_sync` (runner.py 48-57). -/
def get_extensions_results_sync {V : Type} (exts : List (ResultsImpl V)) :
    Except Exc (List (String × V)) :=
  gersSyncAux [] exts

/-- Loop body of the async `get_extensions_results` (runner.py 59-67):
merge every overriding extension's (awaited) contribution in registration
order. -/
def gersAsyncAux {V : Type} (acc : List (String × V)) :
    List (ResultsImpl V) → List (String × V)
  | [] => acc
  | .defaultImpl :: rest => gersAsyncAux acc rest
  | .syncImpl m :: rest => gersAsyncAux (dUpdate acc m) rest
  | .asyncImpl m :: rest => gersAsyncAux (dUpdate acc m) rest

/-- `SchemaExtensionsRunner.get_extensions_results` (runner.py 59-67):
merge the contributions, then `data.update(ctx.extensions_results)` last. -/
def get_extensions_results {V : Type} (exts : List (ResultsImpl V))
    (ctxResults : List (String × V)) : List (String × V) :=
  dUpdate (gersAsyncAux [] exts) ctxResults

/-! ## Subscription driver: `_subscribe` / `subscribe` -/

/-- A value yielded by the `_subscribe` generator. -/
inductive Emitted where
  | preExec (errs : List String)
  | normal (r : Nat)
  | errorResult (e : String)
deriving DecidableEq, Repr

/-- Observable events of the subscription driver.  `opEnter`/`opExit` are
the operation-phase scope hooks, `execEnter`/`execExit` the
executing-phase scope hooks, `parseValidate` the delegated
`_parse_and_validate_async` call (with its own parsing/validation
scopes), `subscribeCall` the external `original_subscribe` call,
`resetResults` the per-iteration reset of
`execution_context.extensions_results`, `pull` one
`await aiterator.__anext__()`, `getResults` one invocation of the
results-aggregation hook, and `emit r` the yielding of result `r` to the
consumer. -/
inductive Ev where
  | opEnter
  | opExit
  | parseValidate
  | execEnter
  | execExit
  | subscribeCall
  | resetResults
  | pull
  | getResults
  | emit (r : Emitted)
deriving DecidableEq, Repr

/-- Is an event an emission? -/
def isEmit : Ev → Bool
  | .emit _ => true
  | _ => false

/-- Modelled from the spec: `_handle_execution_result`
(strawberry/schema/execute.py, whose source is not under src/) converts a
result for emission; per §4.4-§4.5 of the spec it invokes the
results-aggregation (`get_results`) contribution while doing so, which we
record as one `getResults` event. -/
def handleResultEvents : List Ev := [Ev.getResults]

/-- Outcome of one `await aiterator.__anext__()` pull; exhaustion
(StopAsyncIteration) is reaching the end of the outcome list. -/
inductive PullOutcome where
  | event (r : Nat)
  | fail (e : String)
deriving DecidableEq, Repr

/-- One yield of a generator run: the events since the previous yield and
the value yielded. -/
structure Seg where
  pre : List Ev
  val : Emitted
deriving DecidableEq, Repr

/-- A full run of an async generator: its yields in order, and the events
after the last yield until the generator returns. -/
structure GenRun where
  segs : List Seg
  tail : List Ev
deriving DecidableEq, Repr

/-- The per-event loop of `_subscribe` (subscribe.py 89-115).  Each
iteration resets the per-iteration results, enters the executing scope,
pulls one event, exits the scope, and yields the handled result.
StopAsyncIteration breaks out of the loop from inside the scope (the scope
still exits); any other exception from the pull is converted into an
error-bearing result and `running` is set to False, so the loop ends after
yielding it. -/
def runLoop : List PullOutcome → List Seg × List Ev
  | [] =>
    ([], [Ev.resetResults, Ev.execEnter, Ev.pull, Ev.execExit])
  | .event r :: rest =>
    let x := runLoop rest
    (⟨[Ev.resetResults, Ev.execEnter, Ev.pull, Ev.execExit] ++ handleResultEvents,
      Emitted.normal r⟩ :: x.1, x.2)
  | .fail e :: _ =>
    ([⟨[Ev.resetResults, Ev.execEnter, Ev.pull, Ev.execExit] ++ handleResultEvents,
       Emitted.errorResult e⟩], [])

/-- Prepend events to the first yield of a generator run (or to the tail
when the run yields nothing). -/
def consRun (evs : List Ev) (g : GenRun) : GenRun :=
  match g.segs with
  | [] => ⟨[], evs ++ g.tail⟩
  | s :: rest => ⟨⟨evs ++ s.pre, s.val⟩ :: rest, g.tail⟩

/-- What the external `original_subscribe` call returned: an immediate
`ExecutionResult` (carrying its errors) or a live event iterator. -/
inductive SubSource where
  | immediate (errs : List String)
  | iterator (pulls : List PullOutcome)
deriving DecidableEq, Repr

/-- The error text of the failing
`assert execution_context.graphql_document is not None`. -/
def assertionFailure : String := "AssertionError"

/-- `_subscribe` (subscribe.py 41-126) as a generator run, driven to
completion.  On a parse/validate error the PreExecutionError is yielded;
since no `return` follows, control falls into the `try`, where the assert
on `graphql_document` fails inside the executing scope and the
`except Exception` handler yields a second, error-bearing result — the
composed `subscribe` below never reaches it, closing the generator after
the first yield.  Otherwise the executing scope wraps the external
subscribe call; an immediate result is yielded as a PreExecutionError, and
an iterator is driven by the per-event loop. -/
def subscribeGen (parseError : Option (List String)) (src : SubSource) : GenRun :=
  match parseError with
  | some errs =>
    ⟨[⟨[Ev.opEnter, Ev.parseValidate, Ev.getResults] ++ handleResultEvents,
        Emitted.preExec errs⟩,
      ⟨[Ev.execEnter, Ev.execExit] ++ handleResultEvents,
        Emitted.errorResult assertionFailure⟩],
     [Ev.opExit]⟩
  | none =>
    match src with
    | .immediate errs =>
      ⟨[⟨[Ev.opEnter, Ev.parseValidate, Ev.execEnter, Ev.subscribeCall, Ev.execExit]
          ++ handleResultEvents, Emitted.preExec errs⟩],
       [Ev.opExit]⟩
    | .iterator pulls =>
      let x := runLoop pulls
      consRun [Ev.opEnter, Ev.parseValidate, Ev.execEnter, Ev.subscribeCall, Ev.execExit]
        ⟨x.1, x.2 ++ [Ev.opExit]⟩

/-- The event trace of a fully consumed generator run. -/
def fullTrace (g : GenRun) : List Ev :=
  (g.segs.map (fun s => s.pre ++ [Ev.emit s.val])).flatten ++ g.tail

/-- The values a fully consumed generator run yields. -/
def emittedVals (g : GenRun) : List Emitted := g.segs.map (·.val)

/-- What `subscribe` (subscribe.py 129-158) hands to its caller. -/
inductive SubscribeOut where
  | firstPullFailed
  | preExecReturned (v : Emitted) (trace : List Ev)
  | stream (vals : List Emitted) (trace : List Ev)
deriving DecidableEq, Repr

/-- Closing the `_subscribe` generator at a yield point: GeneratorExit is
thrown there; it is not an `Exception`, so the handler at subscribe.py 117
does not catch it, and the `async with extensions_runner.operation()`
scope unwinds, running the operation-phase exit hooks. -/
def closeTrace : List Ev := [Ev.opExit]

/-- `subscribe` (subscribe.py 129-158): pull the first value; if it is a
PreExecutionError, close the generator (`aclose`) and return that single
value; otherwise hand back a stream of the first value followed by the
rest of the generator. -/
def subscribeDriver (parseError : Option (List String)) (src : SubSource) :
    SubscribeOut :=
  let g := subscribeGen parseError src
  match g.segs with
  | [] => .firstPullFailed
  | s :: rest =>
    match s.val with
    | .preExec errs =>
      .preExecReturned (.preExec errs) (s.pre ++ [Ev.emit s.val] ++ closeTrace)
    | _ => .stream (s.val :: rest.map (·.val)) (fullTrace g)

/-- The trace observed when a subscription with a parse/validate error is
driven through `subscribe`. -/
def preExecTrace (errs : List String) : List Ev :=
  [Ev.opEnter, Ev.parseValidate, Ev.getResults] ++ handleResultEvents ++
    [Ev.emit (.preExec errs)] ++ closeTrace

/-- The events of one per-event loop iteration that precede its yield:
reset, executing enter, pull, executing exit, results aggregation. -/
def loopPre : List Ev :=
  [Ev.resetResults, Ev.execEnter, Ev.pull, Ev.execExit] ++ handleResultEvents

/-- The events of `_subscribe` before the per-event loop starts:
operation enter, parse/validate, and the executing scope around the
external subscribe call. -/
def subPrefix : List Ev :=
  [Ev.opEnter, Ev.parseValidate, Ev.execEnter, Ev.subscribeCall, Ev.execExit]

/-! ## Theorems -/

theorem run_sync_mk (hn : String) (ids : List Nat) :
    run_hooks_sync hn (ids.map mkHook) false =
      ⟨ids.map .before, ids.map advHook, none⟩ := by
  induction ids with
  | nil => rfl
  | cons i ids ih =>
    simp [run_hooks_sync, mkHook, mkHookA, genNext, advHook, advHookA, ih]

theorem run_sync_adv (hn : String) (ids : List Nat) :
    run_hooks_sync hn (ids.map advHook) true =
      ⟨ids.map .after, ids.map (fun i => doneHookA i false), none⟩ := by
  induction ids with
  | nil => rfl
  | cons i ids ih =>
    simp [run_hooks_sync, advHook, advHookA, genNext, doneHookA, ih]

theorem run_async_cons_mk (i : Nat) (b : Bool) (hs : List (WrappedHook HookEv)) :
    run_hooks_async (mkHookA i b :: hs) false =
      ⟨.before i :: (run_hooks_async hs false).trace,
       advHookA i b :: (run_hooks_async hs false).hooks,
       (run_hooks_async hs false).err⟩ := rfl

theorem run_async_cons_adv (i : Nat) (b : Bool) (hs : List (WrappedHook HookEv)) :
    run_hooks_async (advHookA i b :: hs) true =
      ⟨.after i :: (run_hooks_async hs true).trace,
       doneHookA i b :: (run_hooks_async hs true).hooks,
       (run_hooks_async hs true).err⟩ := rfl

theorem run_async_mk (ps : List (Nat × Bool)) :
    run_hooks_async (ps.map (fun p => mkHookA p.1 p.2)) false =
      ⟨ps.map (fun p => .before p.1), ps.map (fun p => advHookA p.1 p.2), none⟩ := by
  induction ps with
  | nil => rfl
  | cons p ps ih =>
    rw [List.map_cons, run_async_cons_mk, ih]
    simp

theorem run_async_adv (ps : List (Nat × Bool)) :
    run_hooks_async (ps.map (fun p => advHookA p.1 p.2)) true =
      ⟨ps.map (fun p => .after p.1), ps.map (fun p => doneHookA p.1 p.2), none⟩ := by
  induction ps with
  | nil => rfl
  | cons p ps ih =>
    rw [List.map_cons, run_async_cons_adv, ih]
    simp

theorem run_sync_append {ε : Type} (hn : String) (pre post : List (WrappedHook ε))
    (m : Bool) (h : (run_hooks_sync hn pre m).err = none) :
    run_hooks_sync hn (pre ++ post) m =
      ⟨(run_hooks_sync hn pre m).trace ++ (run_hooks_sync hn post m).trace,
       (run_hooks_sync hn pre m).hooks ++ (run_hooks_sync hn post m).hooks,
       (run_hooks_sync hn post m).err⟩ := by
  induction pre with
  | nil => simp [run_hooks_sync]
  | cons hh rest ih =>
    by_cases ha : hh.is_async
    · simp [run_hooks_sync, ha] at h
    · simp only [run_hooks_sync, ha, if_false, Bool.false_eq_true, List.cons_append,
        List.append_eq] at h ⊢
      cases hout : (genNext hh.gen).2.1 with
      | yielded =>
        simp only [hout] at h ⊢
        rw [ih h]
        simp
      | stopped =>
        cases m with
        | false => simp [hout] at h
        | true =>
          simp only [hout, if_true] at h ⊢
          rw [ih h]
          simp
      | raised e => simp [hout] at h

/-- Claim C1: for every list of registered extensions and every phase, in
both the blocking runner (`run_hooks_sync`) and the suspend-capable runner
(`run_hooks_async`, with arbitrarily mixed sync/async hooks), the "before"
steps fire on entry in registration order and the "after" steps fire on
exit in that same registration order, not reversed. -/
theorem C1_before_after_in_registration_order :
    (∀ (hn : String) (ids : List Nat),
      run_hooks_sync hn (ids.map mkHook) false =
        ⟨ids.map .before, ids.map advHook, none⟩ ∧
      run_hooks_sync hn (ids.map advHook) true =
        ⟨ids.map .after, ids.map (fun i => doneHookA i false), none⟩) ∧
    (∀ ps : List (Nat × Bool),
      run_hooks_async (ps.map (fun p => mkHookA p.1 p.2)) false =
        ⟨ps.map (fun p => .before p.1), ps.map (fun p => advHookA p.1 p.2), none⟩ ∧
      run_hooks_async (ps.map (fun p => advHookA p.1 p.2)) true =
        ⟨ps.map (fun p => .after p.1), ps.map (fun p => doneHookA p.1 p.2), none⟩) :=
  ⟨fun hn ids => ⟨run_sync_mk hn ids, run_sync_adv hn ids⟩,
   fun ps => ⟨run_async_mk ps, run_async_adv ps⟩⟩

theorem run_sync_err_cons (hn nm e : String) (hs : List (WrappedHook HookEv))
    (m : Bool) :
    run_hooks_sync hn (errHook nm e :: hs) m =
      ⟨[], closedHook nm :: hs, some (.hookError e)⟩ := rfl

theorem run_sync_spent_cons (hn nm : String) (hs : List (WrappedHook HookEv)) :
    run_hooks_sync hn (spentHook nm :: hs) true =
      ⟨(run_hooks_sync hn hs true).trace,
       closedHook nm :: (run_hooks_sync hn hs true).hooks,
       (run_hooks_sync hn hs true).err⟩ := rfl

/-- Claim C5: during a phase runner's exit, a wrapper whose advance raises
the natural completion signal (StopIteration — e.g. a single-shot-callable
hook whose generator has no second segment) is suppressed and the
remaining wrappers still run their exit advance; whereas any other
exception raised by a wrapper's advance, during enter or exit, propagates
unchanged to the caller and the later wrappers in the phase do not run
their remaining advance (their generator states are untouched). -/
theorem C5_exit_suppresses_completion_errors_propagate :
    (∀ (hn nm : String) (ids : List Nat),
      run_hooks_sync hn (spentHook nm :: ids.map advHook) true =
        ⟨ids.map .after, closedHook nm :: ids.map (fun i => doneHookA i false),
         none⟩) ∧
    (∀ (hn nm e : String) (ids1 ids2 : List Nat),
      run_hooks_sync hn (ids1.map advHook ++ errHook nm e :: ids2.map advHook) true =
        ⟨ids1.map .after,
         ids1.map (fun i => doneHookA i false) ++ closedHook nm :: ids2.map advHook,
         some (.hookError e)⟩) ∧
    (∀ (hn nm e : String) (ids1 ids2 : List Nat),
      run_hooks_sync hn (ids1.map mkHook ++ errHook nm e :: ids2.map mkHook) false =
        ⟨ids1.map .before,
         ids1.map advHook ++ closedHook nm :: ids2.map mkHook,
         some (.hookError e)⟩) := by
  refine ⟨fun hn nm ids => ?_, fun hn nm e ids1 ids2 => ?_, fun hn nm e ids1 ids2 => ?_⟩
  · rw [run_sync_spent_cons, run_sync_adv]
  · rw [run_sync_append hn _ _ true (by rw [run_sync_adv]), run_sync_adv,
      run_sync_err_cons]
    simp
  · rw [run_sync_append hn _ _ false (by rw [run_sync_mk]), run_sync_mk,
      run_sync_err_cons]
    simp

theorem run_sync_async_cons {ε : Type} (hn : String) (h : WrappedHook ε)
    (hs : List (WrappedHook ε)) (m : Bool) (ha : h.is_async = true) :
    run_hooks_sync hn (h :: hs) m =
      ⟨[], h :: hs, some (.runtimeError (syncFailMsg h.extName hn))⟩ := by
  simp [run_hooks_sync, ha]

theorem gersSync_append {V : Type} (acc : List (String × V))
    (pres : List (Option (List (String × V)))) (rest : List (ResultsImpl V)) :
    gersSyncAux acc (pres.map toSyncImpl ++ rest) =
      gersSyncAux (gersAsyncAux acc (pres.map toSyncImpl)) rest := by
  induction pres generalizing acc with
  | nil => rfl
  | cons p ps ih =>
    cases p with
    | none => simpa [toSyncImpl, gersSyncAux, gersAsyncAux] using ih acc
    | some m => simpa [toSyncImpl, gersSyncAux, gersAsyncAux] using ih (dUpdate acc m)

/-- Claim C4: driving a suspend-capable wrapper through the blocking phase
runner — on entry or on exit, whenever the iteration reaches it — raises
the "failed to complete synchronously" RuntimeError and never advances the
wrapper (it never silently completes); and the blocking
results-aggregation path raises the usage RuntimeError as soon as it
reaches an overriding extension whose `get_results` is a coroutine
function. -/
theorem C4_suspend_capable_in_blocking_context_raises :
    (∀ (ε : Type) (hn : String) (pre post : List (WrappedHook ε))
       (h : WrappedHook ε) (m : Bool),
      h.is_async = true →
      (run_hooks_sync hn pre m).err = none →
      run_hooks_sync hn (pre ++ h :: post) m =
        ⟨(run_hooks_sync hn pre m).trace,
         (run_hooks_sync hn pre m).hooks ++ h :: post,
         some (.runtimeError (syncFailMsg h.extName hn))⟩) ∧
    (∀ (pres : List (Option (List (String × Nat)))) (msub : List (String × Nat))
       (post : List (ResultsImpl Nat)),
      get_extensions_results_sync (pres.map toSyncImpl ++ .asyncImpl msub :: post) =
        .error (.runtimeError asyncResultsMsg)) := by
  constructor
  · intro ε hn pre post h m ha hpre
    rw [run_sync_append hn pre (h :: post) m hpre, run_sync_async_cons hn h post m ha]
    simp
  · intro pres msub post
    rw [get_extensions_results_sync, gersSync_append]
    rfl

/-- Witness for C4 at concrete inputs: one well-behaved sync hook followed
by an async hook in the blocking runner, and one sync `get_results`
override followed by an async one in the blocking aggregation path. -/
theorem C4_witness :
    (run_hooks_sync "on_execute" ([mkHook 0] ++ mkHookA 1 true :: []) false =
      ⟨(run_hooks_sync "on_execute" [mkHook 0] false).trace,
       (run_hooks_sync "on_execute" [mkHook 0] false).hooks ++ mkHookA 1 true :: [],
       some (.runtimeError (syncFailMsg (mkHookA 1 true).extName "on_execute"))⟩) ∧
    (get_extensions_results_sync
        ([some [("k", 1)]].map toSyncImpl ++ .asyncImpl [("a", 2)] :: []) =
      .error (.runtimeError asyncResultsMsg)) :=
  ⟨C4_suspend_capable_in_blocking_context_raises.1 HookEv "on_execute" [mkHook 0] []
      (mkHookA 1 true) false rfl rfl,
   C4_suspend_capable_in_blocking_context_raises.2 [some [("k", 1)]] [("a", 2)] []⟩

theorem dlookup_append {V : Type} (a b : List (String × V)) (k : String) :
    dlookup (a ++ b) k = (dlookup a k).orElse (fun _ => dlookup b k) := by
  induction a with
  | nil => simp [dlookup]
  | cons p ps ih =>
    by_cases hk : p.1 = k
    · simp [dlookup, List.find?, hk]
    · simp only [dlookup, List.cons_append, List.find?] at ih ⊢
      rw [decide_eq_false hk]
      exact ih

theorem gersAsync_append {V : Type} (acc : List (String × V))
    (l1 l2 : List (ResultsImpl V)) :
    gersAsyncAux acc (l1 ++ l2) = gersAsyncAux (gersAsyncAux acc l1) l2 := by
  induction l1 generalizing acc with
  | nil => rfl
  | cons i rest ih =>
    cases i with
    | defaultImpl => simpa [gersAsyncAux] using ih acc
    | syncImpl m => simpa [gersAsyncAux] using ih (dUpdate acc m)
    | asyncImpl m => simpa [gersAsyncAux] using ih (dUpdate acc m)

/-- Counterexample to Claim C2 as stated: with one registered extension
whose sync `get_results` contributes `{"k": 1}` and a per-iteration
extensions-results mapping `{"k": 2}`, the suspend-capable variant
resolves the colliding key to the per-iteration value 2, but the blocking
variant returns `{"k": 1}` — it never overlays the per-iteration mapping
(it does not even receive the ExecutionContext). -/
theorem C2_counterexample_sync_variant_has_no_overlay :
    dlookup (get_extensions_results [ResultsImpl.syncImpl [("k", 1)]] [("k", 2)]) "k"
        = some 2 ∧
    get_extensions_results_sync [ResultsImpl.syncImpl [("k", (1 : Nat))]] =
        .ok [("k", 1)] ∧
    dlookup [("k", (1 : Nat))] "k" = some 1 := by
  refine ⟨rfl, rfl, rfl⟩

/-- Claim C2 (amended): the suspend-capable results-aggregation variant
merges the overriding extensions' mappings in registration order (the
later extension's value wins on collision) and overlays the
ExecutionContext's per-iteration mapping last, so the per-iteration value
wins on every colliding key; the blocking variant performs the same merge
over non-async extensions but does NOT overlay the per-iteration mapping —
it takes no ExecutionContext argument at all. -/
theorem C2_amended_results_merge :
    (∀ (V : Type) (exts : List (ResultsImpl V)) (ctx : List (String × V)) (k : String),
      dlookup (get_extensions_results exts ctx) k =
        (dlookup ctx k).orElse (fun _ => dlookup (gersAsyncAux [] exts) k)) ∧
    (∀ (V : Type) (exts : List (ResultsImpl V)) (m : List (String × V)) (k : String),
      dlookup (gersAsyncAux [] (exts ++ [.syncImpl m])) k =
        (dlookup m k).orElse (fun _ => dlookup (gersAsyncAux [] exts) k)) ∧
    (∀ (V : Type) (pres : List (Option (List (String × V)))),
      get_extensions_results_sync (pres.map toSyncImpl) =
        .ok (gersAsyncAux [] (pres.map toSyncImpl))) := by
  refine ⟨fun V exts ctx k => ?_, fun V exts m k => ?_, fun V pres => ?_⟩
  · rw [get_extensions_results, dUpdate, dlookup_append]
  · rw [gersAsync_append]
    simp only [gersAsyncAux, dUpdate]
    rw [dlookup_append]
  · have h := gersSync_append ([] : List (String × V)) pres []
    simpa [gersSyncAux] using h

/-- Claim C3 (the conflict is detected, but the message is broken): a hook
list built over an extension defining both a legacy callback and an
overridden new-style hook for the same phase fails at construction time
with the configuration RuntimeError, before any hook runs — however the
message never names the conflicting phase: the source's second string
fragment lacks the `f` prefix, so the message ends with the literal
characters "\x7bself.HOOK_NAME\x7d" for every phase, and none of the four
phase hook names occurs in it. -/
theorem C3_conflict_raises_but_message_lacks_phase :
    (∀ (ε : Type) (nm : String) (s : LegacyFn ε) (e : Option (LegacyFn ε))
       (shape : HookShape ε) (exts : List (ExtDef ε)),
      hookOverridden shape = true →
      initHooks (⟨nm, some s, e, shape⟩ :: exts) =
        .error (.runtimeError conflictMsg)) ∧
    containsSub "on_operation".data conflictMsg.data = false ∧
    containsSub "on_validate".data conflictMsg.data = false ∧
    containsSub "on_parse".data conflictMsg.data = false ∧
    containsSub "on_execute".data conflictMsg.data = false := by
  refine ⟨fun ε nm s e shape exts hshape => ?_, by rfl, by rfl, by rfl, by rfl⟩
  have hg : get_hook (⟨nm, some s, e, shape⟩ : ExtDef ε) =
      .error (.runtimeError conflictMsg) := by
    simp [get_hook, hshape]
  simp [initHooks, hg]

/-- Witness for C3: the concrete conflicting extension — legacy
`on_executing_start` present and `on_execute` overridden by a sync
generator — fails hook-list construction with the conflict message. -/
theorem C3_witness :
    initHooks [(⟨"MyExt", some ⟨[], false⟩, none, .syncGen []⟩ : ExtDef HookEv)] =
      .error (.runtimeError conflictMsg) :=
  C3_conflict_raises_but_message_lacks_phase.1 HookEv "MyExt" ⟨[], false⟩ none
    (.syncGen []) [] rfl

/-- Claim C9: an extension defining only a legacy start/end pair builds
exactly the same two-phase generator as the equivalent new-style
single-generator extension — the first advance runs the start effects and
yields, the second runs the end effects and finishes — except that the
deprecation-warning flag is recorded at wrapper construction; and the
built step is suspend-capable if and only if either the start or the end
callback is a coroutine function. -/
theorem C9_legacy_equals_new_style_modulo_warning :
    ∀ (ε : Type) (nm : String) (sEff eEff : List ε) (sCo eCo : Bool),
      get_hook ⟨nm, some ⟨sEff, sCo⟩, some ⟨eEff, eCo⟩, .defaultHook⟩ =
        .ok (some ⟨nm, ⟨[⟨sEff, .yielded⟩, ⟨eEff, .stopped⟩], false⟩, sCo || eCo⟩,
             true) ∧
      get_hook (⟨nm, none, none, .syncGen [⟨sEff, .yielded⟩, ⟨eEff, .stopped⟩]⟩ :
          ExtDef ε) =
        .ok (some ⟨nm, ⟨[⟨sEff, .yielded⟩, ⟨eEff, .stopped⟩], false⟩, false⟩,
             false) ∧
      genNext (⟨[⟨sEff, .yielded⟩, ⟨eEff, .stopped⟩], false⟩ : GenState ε) =
        (sEff, .yielded, ⟨[⟨eEff, .stopped⟩], false⟩) ∧
      genNext (⟨[⟨eEff, .stopped⟩], false⟩ : GenState ε) =
        (eEff, .stopped, ⟨[], true⟩) := by
  intro ε nm sEff eEff sCo eCo
  refine ⟨?_, rfl, rfl, rfl⟩
  simp [get_hook, from_legacy, hookOverridden, optEffects, optCoroutine]

theorem emittedVals_consRun (evs : List Ev) (g : GenRun) :
    emittedVals (consRun evs g) = emittedVals g := by
  rcases g with ⟨segs, tail⟩
  cases segs <;> rfl

theorem fullTrace_consRun (evs : List Ev) (g : GenRun) :
    fullTrace (consRun evs g) = evs ++ fullTrace g := by
  rcases g with ⟨segs, tail⟩
  cases segs with
  | nil => simp [consRun, fullTrace]
  | cons s rest => simp [consRun, fullTrace]

theorem runLoop_vals_fail (events : List Nat) (e : String) :
    ((runLoop (events.map PullOutcome.event ++ [.fail e])).1).map (·.val) =
      events.map Emitted.normal ++ [.errorResult e] := by
  induction events with
  | nil => rfl
  | cons r rs ih =>
    simp only [List.map_cons, List.cons_append, List.append_eq, runLoop, ih]

theorem runLoop_pure (events : List Nat) :
    runLoop (events.map PullOutcome.event) =
      (events.map (fun r => ⟨loopPre, Emitted.normal r⟩),
       [Ev.resetResults, Ev.execEnter, Ev.pull, Ev.execExit]) := by
  induction events with
  | nil => rfl
  | cons r rs ih => simp [runLoop, ih, loopPre]

/-- Claim C6: when the external iterator yields the given events and the
next pull raises, the per-event loop converts the failure into a single
error-bearing result which is emitted, and the sequence is then exhausted:
the fully consumed `_subscribe` generator yields exactly the normal
results followed by one error-bearing result and nothing more.  With two
events and a failing third pull this is 3 results (2 normal then 1
error-bearing). -/
theorem C6_pull_failure_becomes_final_error_result :
    ∀ (events : List Nat) (e : String),
      emittedVals
          (subscribeGen none (.iterator (events.map PullOutcome.event ++ [.fail e]))) =
        events.map Emitted.normal ++ [Emitted.errorResult e] := by
  intro events e
  simp only [subscribeGen]
  rw [emittedVals_consRun]
  simpa [emittedVals] using runLoop_vals_fail events e

/-- Claim C7: in the per-event loop the results-aggregation contribution
runs only after the executing-phase exit for that event has fully
completed, and the emission follows it — identically on the event path
and the error path: every segment the loop yields is preceded by exactly
`loopPre` (reset, executing enter, pull, executing exit, results
aggregation), and each one-event trace is `loopPre` followed by the
emission, for both a normal event and a failing pull. -/
theorem C7_results_aggregation_after_exec_exit_both_paths :
    (∀ (pulls : List PullOutcome) (s : Seg),
      s ∈ (runLoop pulls).1 → s.pre = loopPre) ∧
    (∀ (r : Nat) (e : String),
      (runLoop [.event r]).1.map (fun s => s.pre ++ [Ev.emit s.val]) =
        [loopPre ++ [Ev.emit (.normal r)]] ∧
      (runLoop [.fail e]).1.map (fun s => s.pre ++ [Ev.emit s.val]) =
        [loopPre ++ [Ev.emit (.errorResult e)]]) := by
  constructor
  · intro pulls
    induction pulls with
    | nil => intro s hs; simp [runLoop] at hs
    | cons p rest ih =>
      intro s hs
      cases p with
      | event r =>
        simp only [runLoop, List.mem_cons] at hs
        rcases hs with hs | hs
        · rw [hs]; rfl
        · exact ih s hs
      | fail e =>
        simp only [runLoop, List.mem_cons, List.not_mem_nil, or_false] at hs
        rw [hs]; rfl
  · intro r e
    exact ⟨rfl, rfl⟩

/-- Witness for C7: the single segment of a one-event loop run. -/
theorem C7_witness :
    (⟨loopPre, Emitted.normal 0⟩ : Seg).pre = loopPre :=
  C7_results_aggregation_after_exec_exit_both_paths.1 [.event 0]
    ⟨loopPre, Emitted.normal 0⟩ (by simp [runLoop, loopPre])

/-- Claim C8: when parsing/validation of a subscription yields an error,
the composed `subscribe` surfaces it as a single terminal result tagged as
a pre-execution error and closes the generator after exactly that one
emitted value; in the resulting trace the executing scope is never
entered, exactly one value is emitted, and the operation-scope exit hooks
still run. -/
theorem C8_parse_error_single_terminal_result :
    ∀ (errs : List String) (src : SubSource),
      subscribeDriver (some errs) src =
        .preExecReturned (.preExec errs) (preExecTrace errs) ∧
      Ev.execEnter ∉ preExecTrace errs ∧
      Ev.opExit ∈ preExecTrace errs ∧
      (preExecTrace errs).countP (fun ev => isEmit ev) = 1 := by
  intro errs src
  refine ⟨rfl, ?_, ?_, rfl⟩ <;>
    simp [preExecTrace, handleResultEvents, closeTrace]

theorem subscribeGen_pure (events : List Nat) :
    subscribeGen none (.iterator (events.map PullOutcome.event)) =
      consRun subPrefix
        ⟨events.map (fun r => ⟨loopPre, Emitted.normal r⟩),
         [Ev.resetResults, Ev.execEnter, Ev.pull, Ev.execExit, Ev.opExit]⟩ := by
  simp [subscribeGen, runLoop_pure, subPrefix]

theorem count_flat_loopPre (events : List Nat) (ev : Ev)
    (h1 : loopPre.count ev = 1) (h2 : ∀ r : Nat, ev ≠ Ev.emit (.normal r)) :
    ((events.map (fun r => loopPre ++ [Ev.emit (Emitted.normal r)])).flatten).count ev =
      events.length := by
  induction events with
  | nil => rfl
  | cons r rs ih =>
    simp only [List.map_cons, List.flatten_cons, List.count_append, ih,
      List.length_cons, h1]
    have : [Ev.emit (Emitted.normal r)].count ev = 0 := by
      simp [List.count_singleton]
      intro hc
      exact h2 r hc.symm
    omega

/-- Claim C10: driving `_subscribe` to completion over an external
iterator that yields the given events and then exhausts cleanly runs the
executing-phase enter (and exit) `events.length + 2` times — once around
the external subscribe call, once per emitted event, and once around the
final pull that raises StopAsyncIteration — while only `events.length`
results are emitted; the trace ends with the final
reset/enter/pull/exit iteration (including its per-iteration reset of the
extensions-results mapping) followed by the operation exit, with no
emission after it. -/
theorem C10_executing_scope_runs_n_plus_two_times :
    ∀ events : List Nat,
      (fullTrace (subscribeGen none (.iterator (events.map PullOutcome.event)))).count
          Ev.execEnter = events.length + 2 ∧
      (fullTrace (subscribeGen none (.iterator (events.map PullOutcome.event)))).count
          Ev.execExit = events.length + 2 ∧
      emittedVals (subscribeGen none (.iterator (events.map PullOutcome.event))) =
        events.map Emitted.normal ∧
      [Ev.resetResults, Ev.execEnter, Ev.pull, Ev.execExit, Ev.opExit] <:+
        fullTrace (subscribeGen none (.iterator (events.map PullOutcome.event))) := by
  intro events
  have hft : fullTrace (subscribeGen none (.iterator (events.map PullOutcome.event))) =
      subPrefix ++
        (((events.map (fun r => loopPre ++ [Ev.emit (Emitted.normal r)])).flatten) ++
          [Ev.resetResults, Ev.execEnter, Ev.pull, Ev.execExit, Ev.opExit]) := by
    rw [subscribeGen_pure, fullTrace_consRun]
    simp [fullTrace, Function.comp_def]
  refine ⟨?_, ?_, ?_, ?_⟩
  · rw [hft]
    simp only [List.count_append,
      count_flat_loopPre events Ev.execEnter rfl (fun r => by simp)]
    have h1 : (subPrefix.count Ev.execEnter) = 1 := rfl
    have h2 : ([Ev.resetResults, Ev.execEnter, Ev.pull, Ev.execExit,
        Ev.opExit].count Ev.execEnter) = 1 := rfl
    omega
  · rw [hft]
    simp only [List.count_append,
      count_flat_loopPre events Ev.execExit rfl (fun r => by simp)]
    have h1 : (subPrefix.count Ev.execExit) = 1 := rfl
    have h2 : ([Ev.resetResults, Ev.execEnter, Ev.pull, Ev.execExit,
        Ev.opExit].count Ev.execExit) = 1 := rfl
    omega
  · rw [subscribeGen_pure, emittedVals_consRun]
    simp [emittedVals]
  · exact ⟨subPrefix ++
      ((events.map (fun r => loopPre ++ [Ev.emit (Emitted.normal r)])).flatten),
      by rw [hft]; simp⟩

end Strawberry
